import Mathlib

/-!
Verification of the per-frame video-compositing pipeline of
`src/python_video_processing/run_video_processing.py`.

Shallow embedding conventions:
* 8-bit image data (`np.uint8`) is modelled as `ℕ` pixel values (well-formedness
  `≤ 255` is carried as a hypothesis where a property needs it);
* floating-point data (`np.float32`/`float64`) is idealised as exact rationals `ℚ`
  (decimal literals such as `0.33` become `33/100`);
* images are total functions from (row, column, channel) to a value together with
  explicit height/width fields — OpenCV operations construct the output dimensions
  explicitly, exactly as the corresponding calls do;
* the external collaborators (YOLO segmentation, YOLO pose, video I/O) are inputs
  to the per-frame step function, matching §6 of the design: the step receives the
  segmentation mask (if any) and the first detection's keypoints (if any), both
  produced from the raw frame;
* `cv2.GaussianBlur` is an external OpenCV primitive whose numeric content none of
  the verified properties depend on; it is passed as an explicit function
  parameter `blur`;
* `cv2.resize` / `cv2.warpAffine` bilinear interpolation is modelled as exact
  rational bilinear sampling (replicated-border clamping for `resize`,
  constant-0 border for `warpAffine`), OpenCV's fixed-point quantisation being
  idealised away;
* `cv2.getAffineTransform` is the exact 3-point linear solve (Cramer's rule);
  `cv2.warpAffine` first inverts the forward matrix with OpenCV's
  `invertAffineTransform` convention: a singular matrix inverts to the all-zero
  matrix.
-/

namespace VideoProc

/-- A 2D point with rational (idealised float) coordinates. -/
structure Pt where
  x : ℚ
  y : ℚ
deriving DecidableEq

/-- An ordered landmark triple, in the order the source builds `dst_tri`
and `src_tri`: `(eye_l, eye_r, nose)` resp. `(EYE_L, EYE_R, NOSE)`. -/
structure Tri where
  p1 : Pt
  p2 : Pt
  p3 : Pt
deriving DecidableEq

/-- A 2×3 affine matrix `[[a, b, c], [d, e, f]]`, acting as
`(x, y) ↦ (a·x + b·y + c, d·x + e·y + f)`. -/
structure Aff where
  a : ℚ
  b : ℚ
  c : ℚ
  d : ℚ
  e : ℚ
  f : ℚ
deriving DecidableEq

/-- Action of an affine matrix on a point. -/
def Aff.apply (m : Aff) (x y : ℚ) : ℚ × ℚ :=
  (m.a * x + m.b * y + m.c, m.d * x + m.e * y + m.f)

/-- A 3-channel (BGR) 8-bit image: `np.uint8` array of shape (h, w, 3).
`px` takes (row, column, channel). -/
@[ext]
structure Img where
  h : ℕ
  w : ℕ
  px : ℕ → ℕ → Fin 3 → ℕ

/-- A 4-channel (BGRA) 8-bit image: `np.uint8` array of shape (h, w, 4). -/
structure Rgba where
  h : ℕ
  w : ℕ
  px : ℕ → ℕ → Fin 4 → ℕ

/-- A single-channel floating-point 2D array (the segmentation mask). -/
structure GrayQ where
  h : ℕ
  w : ℕ
  px : ℕ → ℕ → ℚ

/-- Python `int(q)`: truncation toward zero. -/
def pyInt (q : ℚ) : ℤ :=
  if q < 0 then -⌊-q⌋ else ⌊q⌋

/-- Conversion `np.float → np.uint8` via `.astype(np.uint8)`: C-style cast,
truncation toward zero then wrap-around modulo 256. -/
def u8ofQ (q : ℚ) : ℕ :=
  (pyInt q).toNat % 256

/-- OpenCV `saturate_cast<uchar>`: round to nearest, clamp to [0, 255]. -/
def rndU8 (q : ℚ) : ℕ :=
  min (round q).toNat 255

/-- Clamp an integer index into `[0, n-1]` (replicated-border fetch). -/
def clampIdx (n : ℕ) (i : ℤ) : ℕ :=
  (min (max 0 i) ((n : ℤ) - 1)).toNat

/-! ### LandmarksEMA (source lines 13–28) -/

/-- The smoother object: smoothing factor `alpha` and the stored
`last_landmarks` (`None` before the first call). -/
structure LandmarksEMA where
  alpha : ℚ
  last_landmarks : Option Tri
deriving DecidableEq

/-- The mix `alpha * landmarks + (1 - alpha) * last`, applied independently to every
coordinate of the 3 points (numpy broadcasts the scalars over the 3×2 array). -/
def emaMix (alpha : ℚ) (t p : Tri) : Tri :=
  ⟨⟨alpha * t.p1.x + (1 - alpha) * p.p1.x, alpha * t.p1.y + (1 - alpha) * p.p1.y⟩,
   ⟨alpha * t.p2.x + (1 - alpha) * p.p2.x, alpha * t.p2.y + (1 - alpha) * p.p2.y⟩,
   ⟨alpha * t.p3.x + (1 - alpha) * p.p3.x, alpha * t.p3.y + (1 - alpha) * p.p3.y⟩⟩

/-- Method `LandmarksEMA.__call__`: returns the updated smoother together with the
value returned to the caller. -/
def LandmarksEMA.call (s : LandmarksEMA) (landmarks : Tri) : LandmarksEMA × Tri :=
  match s.last_landmarks with
  | none => (⟨s.alpha, some landmarks⟩, landmarks)
  | some last =>
      let smoothed := emaMix s.alpha landmarks last
      (⟨s.alpha, some smoothed⟩, smoothed)

/-! ### process_background (source lines 40–72) -/

/-- The mode string `'blur'`. -/
def modeBlur : String :=
  "blur"

/-- The mode string `'image'`. -/
def modeImage : String :=
  "image"

/-- Model of `cv2.resize(m, (w, h), interpolation=cv2.INTER_LINEAR)`: bilinear resampling
with half-pixel-centre source coordinates and replicated-border (clamped) fetch,
in exact rational arithmetic. -/
def cvResize (m : GrayQ) (w h : ℕ) : GrayQ where
  h := h
  w := w
  px y x :=
    let sx : ℚ := ((x : ℚ) + 1/2) * ((m.w : ℚ) / (w : ℚ)) - 1/2
    let sy : ℚ := ((y : ℚ) + 1/2) * ((m.h : ℚ) / (h : ℚ)) - 1/2
    let fx : ℚ := sx - ⌊sx⌋
    let fy : ℚ := sy - ⌊sy⌋
    let v : ℤ → ℤ → ℚ := fun xi yi => m.px (clampIdx m.h yi) (clampIdx m.w xi)
    (1 - fy) * ((1 - fx) * v ⌊sx⌋ ⌊sy⌋ + fx * v (⌊sx⌋ + 1) ⌊sy⌋)
      + fy * ((1 - fx) * v ⌊sx⌋ (⌊sy⌋ + 1) + fx * v (⌊sx⌋ + 1) (⌊sy⌋ + 1))

/-- Source line `seg_mask_resized = cv2.resize(seg_mask, (w, h), ...)` with `(w, h)` the
frame's dimensions. (The source first squeezes a possible singleton leading
dimension off the mask; the 2D `GrayQ` representation is already squeezed.) -/
def segMaskResized (frame : Img) (seg_mask : GrayQ) : GrayQ :=
  cvResize seg_mask frame.w frame.h

/-- Source line `seg_mask_3ch = cv2.cvtColor((seg_mask_resized * 255).astype(np.uint8),
cv2.COLOR_GRAY2BGR)`: scale to [0, 255], truncate to `uint8`, and replicate the
single channel into 3 identical channels. -/
def segMask3ch (frame : Img) (seg_mask : GrayQ) : Img where
  h := frame.h
  w := frame.w
  px y x _ := u8ofQ ((segMaskResized frame seg_mask).px y x * 255)

/-- Model of `cv2.bitwise_not`: per-pixel bitwise complement on `uint8`
(`255 - v` for values ≤ 255). -/
def imgNot (a : Img) : Img where
  h := a.h
  w := a.w
  px y x c := 255 - a.px y x c

/-- Model of `cv2.bitwise_and`: per-pixel, per-channel bitwise AND. -/
def imgAnd (a b : Img) : Img where
  h := a.h
  w := a.w
  px y x c := a.px y x c &&& b.px y x c

/-- Model of `cv2.add`: per-pixel, per-channel saturating 8-bit addition. -/
def imgAdd (a b : Img) : Img where
  h := a.h
  w := a.w
  px y x c := min (a.px y x c + b.px y x c) 255

/-- The function `process_background(frame, seg_mask, mode, bg_image=None)` (source lines
40–72). `blur` stands for the external OpenCV primitive
`cv2.GaussianBlur(·, (21, 21), 0)`. -/
def process_background (blur : Img → Img) (frame : Img) (seg_mask : GrayQ)
    (mode : String) (bg_image : Option Img) : Img :=
  let seg_mask_3ch := segMask3ch frame seg_mask
  let inv_mask := imgNot seg_mask_3ch
  let person := imgAnd frame seg_mask_3ch
  let background :=
    if mode = modeBlur then
      imgAnd (blur frame) inv_mask
    else
      match bg_image with
      | some bg => if mode = modeImage then imgAnd bg inv_mask else imgAnd frame inv_mask
      | none => imgAnd frame inv_mask
  imgAdd person background

/-! ### overlay_png_affine (source lines 74–104) -/

/-- The fixed fractional template anchors of the overlay asset
(source lines 82–85): `int(W·0.33), int(H·0.36)` etc., in the order
`(EYE_L, EYE_R, NOSE)`. -/
def srcTriangle (W H : ℕ) : Tri :=
  ⟨⟨(pyInt ((W : ℚ) * (33/100)) : ℚ), (pyInt ((H : ℚ) * (36/100)) : ℚ)⟩,
   ⟨(pyInt ((W : ℚ) * (67/100)) : ℚ), (pyInt ((H : ℚ) * (36/100)) : ℚ)⟩,
   ⟨(pyInt ((W : ℚ) * (50/100)) : ℚ), (pyInt ((H : ℚ) * (46/100)) : ℚ)⟩⟩

/-- Model of `cv2.getAffineTransform(src, dst)`: the exact affine solve of the three
point correspondences, by Cramer's rule on the differences to the third
point. -/
def getAffineTransform (s d : Tri) : Aff :=
  let ux1 := s.p1.x - s.p3.x
  let uy1 := s.p1.y - s.p3.y
  let ux2 := s.p2.x - s.p3.x
  let uy2 := s.p2.y - s.p3.y
  let vx1 := d.p1.x - d.p3.x
  let vy1 := d.p1.y - d.p3.y
  let vx2 := d.p2.x - d.p3.x
  let vy2 := d.p2.y - d.p3.y
  let det := ux1 * uy2 - ux2 * uy1
  let ma := (vx1 * uy2 - vx2 * uy1) / det
  let mb := (vx2 * ux1 - vx1 * ux2) / det
  let md := (vy1 * uy2 - vy2 * uy1) / det
  let me := (vy2 * ux1 - vy1 * ux2) / det
  ⟨ma, mb, d.p3.x - ma * s.p3.x - mb * s.p3.y,
   md, me, d.p3.y - md * s.p3.x - me * s.p3.y⟩

/-- Model of `cv2.invertAffineTransform`: invert the 2×2 linear part by its adjugate
over the determinant; OpenCV's convention maps a singular matrix to the
all-zero matrix (it replaces `1/D` by `0` when `D = 0`). -/
def invertAffineTransform (m : Aff) : Aff :=
  let D := m.a * m.e - m.b * m.d
  let iD := if D = 0 then 0 else 1 / D
  ⟨m.e * iD, -m.b * iD, (m.b * m.f - m.e * m.c) * iD,
   -m.d * iD, m.a * iD, (m.d * m.c - m.a * m.f) * iD⟩

/-- Bilinear sampling of a BGRA image at rational coordinates, with the
constant-0 (fully transparent) border of `cv2.warpAffine`'s default
`BORDER_CONSTANT`. -/
def sampleRgba (im : Rgba) (sx sy : ℚ) (ch : Fin 4) : ℚ :=
  let fx : ℚ := sx - ⌊sx⌋
  let fy : ℚ := sy - ⌊sy⌋
  let v : ℤ → ℤ → ℚ := fun xi yi =>
    if 0 ≤ xi ∧ xi < (im.w : ℤ) ∧ 0 ≤ yi ∧ yi < (im.h : ℤ) then
      (im.px yi.toNat xi.toNat ch : ℚ)
    else 0
  (1 - fy) * ((1 - fx) * v ⌊sx⌋ ⌊sy⌋ + fx * v (⌊sx⌋ + 1) ⌊sy⌋)
    + fy * ((1 - fx) * v ⌊sx⌋ (⌊sy⌋ + 1) + fx * v (⌊sx⌋ + 1) (⌊sy⌋ + 1))

/-- Model of `cv2.warpAffine(im, m, (w, h))` with the default flags: invert the forward
matrix, then for every canvas pixel sample the source bilinearly at the
inverse-mapped position, saturating back to `uint8`. -/
def warpAffine (im : Rgba) (m : Aff) (w h : ℕ) : Rgba where
  h := h
  w := w
  px y x ch :=
    let p := (invertAffineTransform m).apply (x : ℚ) (y : ℚ)
    rndU8 (sampleRgba im p.1 p.2 ch)

/-- Channel embedding: the BGR channels of a BGRA pixel
(`warped_overlay[..., :3]`). -/
def rgbCh (c : Fin 3) : Fin 4 :=
  ⟨c.val, by omega⟩

/-- The alpha channel (`warped_overlay[..., 3]`). -/
def alphaCh : Fin 4 :=
  ⟨3, by omega⟩

/-- The function `overlay_png_affine(frame, overlay_rgba, dst_tri)` (source lines 74–104):
build the template source triangle, solve the affine transform onto `dst_tri`,
warp the RGBA asset to a frame-sized canvas, then alpha-blend
`frame·(1-mask) + rgb·mask` and truncate to `uint8`. There is no degeneracy
check on `dst_tri` anywhere in this function. -/
def overlay_png_affine (frame : Img) (overlay_rgba : Rgba) (dst_tri : Tri) : Img where
  h := frame.h
  w := frame.w
  px y x c :=
    let src_tri := srcTriangle overlay_rgba.w overlay_rgba.h
    let affine_matrix := getAffineTransform src_tri dst_tri
    let warped_overlay := warpAffine overlay_rgba affine_matrix frame.w frame.h
    let mask : ℚ := (warped_overlay.px y x alphaCh : ℚ) / 255
    u8ofQ ((frame.px y x c : ℚ) * (1 - mask)
      + (warped_overlay.px y x (rgbCh c) : ℚ) * mask)

/-- Collinearity of the three points of a triangle: the cross product of the
difference vectors to the third point vanishes. -/
def collinear (t : Tri) : Prop :=
  (t.p1.x - t.p3.x) * (t.p2.y - t.p3.y) = (t.p2.x - t.p3.x) * (t.p1.y - t.p3.y)

instance (t : Tri) : Decidable (collinear t) := by
  unfold collinear
  infer_instance

/-! ### The per-frame orchestration (source lines 188–232) -/

/-- The working frame after the background step: the background-composited
frame when the segmentation collaborator returned a person mask, the raw frame
otherwise (source lines 199–204). -/
def workingFrame (blur : Img → Img) (mode : String) (bg_image : Option Img)
    (frame : Img) (seg : Option GrayQ) : Img :=
  match seg with
  | some seg_mask => process_background blur frame seg_mask mode bg_image
  | none => frame

/-- Result of one iteration of the main loop: the emitted frame, the smoother
as left after the frame, and — as a ghost observation for stating pipeline
properties — the validated raw triangle that was fed to the smoother
(`none` when the overlay step was skipped). -/
structure StepOut where
  out : Img
  ema : LandmarksEMA
  used : Option Tri

/-- Mirrored-pose correction (source lines 220–221): swap the eye points when
the left eye sits to the right of the right eye. -/
def mirrorFix (eye_l eye_r : Pt) : Pt × Pt :=
  if eye_l.x > eye_r.x then (eye_r, eye_l) else (eye_l, eye_r)

/-- Validity gate (source line 224): `np.all(nose > 0) and np.all(eye_l > 0)
and np.all(eye_r > 0)` — every coordinate strictly positive. -/
def gateOK (nose eye_l eye_r : Pt) : Prop :=
  0 < nose.x ∧ 0 < nose.y ∧ 0 < eye_l.x ∧ 0 < eye_l.y
    ∧ 0 < eye_r.x ∧ 0 < eye_r.y

instance (nose eye_l eye_r : Pt) : Decidable (gateOK nose eye_l eye_r) := by
  unfold gateOK
  infer_instance

/-- One iteration of the main processing loop (source lines 188–232).
The external collaborators' outputs are inputs: `seg` is the unioned person
mask if any instance masks were returned, `pose` is the first detection's
(nose, left-eye, right-eye) keypoints read by fixed indices 0, 1, 2 — both
produced from the raw `frame` (the source invokes `model_pose(frame)` on the
raw frame, not on the composited one). -/
def processFrame (blur : Img → Img) (mode : String) (bg_image : Option Img)
    (ema : LandmarksEMA) (mask_rgba : Rgba) (frame : Img)
    (seg : Option GrayQ) (pose : Option (Pt × Pt × Pt)) : StepOut :=
  let final_frame := workingFrame blur mode bg_image frame seg
  match pose with
  | none => ⟨final_frame, ema, none⟩
  | some (nose, eye_l, eye_r) =>
      let eyes := mirrorFix eye_l eye_r
      if gateOK nose eyes.1 eyes.2 then
        let dst_tri_raw : Tri := ⟨eyes.1, eyes.2, nose⟩
        let stepped := ema.call dst_tri_raw
        ⟨overlay_png_affine final_frame mask_rgba stepped.2, stepped.1,
          some dst_tri_raw⟩
      else
        ⟨final_frame, ema, none⟩

/-! ### Spec-side comparison definition and concrete test objects -/

/-- Modelled from the spec's words (§3, claim C7), for comparison with the
source-derived `srcTriangle`: the exact fractional template
left-eye `(0.33·W, 0.36·H)`, right-eye `(0.67·W, 0.36·H)`,
nose `(0.50·W, 0.46·H)`, without the source's `int(...)` truncation. -/
def srcTriangleSpec (W H : ℕ) : Tri :=
  ⟨⟨(W : ℚ) * (33/100), (H : ℚ) * (36/100)⟩,
   ⟨(W : ℚ) * (67/100), (H : ℚ) * (36/100)⟩,
   ⟨(W : ℚ) * (50/100), (H : ℚ) * (46/100)⟩⟩

/-- A concrete 2×2 test frame, constant value 7 per channel. -/
def frameT : Img :=
  ⟨2, 2, fun _ _ _ => 7⟩

/-- A concrete all-ones 2×2 segmentation mask. -/
def maskOnesT : GrayQ :=
  ⟨2, 2, fun _ _ => 1⟩

/-- A concrete 1×1 RGBA overlay asset (fully transparent). -/
def rgbaT : Rgba :=
  ⟨1, 1, fun _ _ _ => 0⟩

/-- A concrete fresh smoother with the source's default `alpha=0.6`. -/
def emaT : LandmarksEMA :=
  ⟨3/5, none⟩

/-- A concrete 100×100 fully opaque overlay asset: alpha 255, colour 200. -/
def ovOpaqueT : Rgba :=
  ⟨100, 100, fun _ _ c => if c = alphaCh then 255 else 200⟩

/-- A concrete degenerate destination triangle: all three points on the
x-axis. -/
def triCollinearT : Tri :=
  ⟨⟨0, 0⟩, ⟨2, 0⟩, ⟨1, 0⟩⟩

/-- A concrete non-degenerate destination triangle. -/
def triGoodT : Tri :=
  ⟨⟨1, 1⟩, ⟨3, 1⟩, ⟨2, 2⟩⟩

end VideoProc

namespace VideoProc

/-! ### Helper lemmas -/

/-- Bitwise AND with the all-ones 8-bit pattern is the identity on bytes. -/
theorem and_255 {v : ℕ} (hv : v ≤ 255) : v &&& 255 = v := by
  have h : v < 2 ^ 8 := by omega
  have h2 := Nat.and_pow_two_sub_one_of_lt_two_pow h
  norm_num at h2
  exact h2

/-- Bilinear resampling of a constant mask is constant. -/
theorem cvResize_const {m : GrayQ} {q : ℚ} (hm : ∀ y x, m.px y x = q)
    (w h : ℕ) : ∀ y x, (cvResize m w h).px y x = q := by
  intro y x
  simp only [cvResize, hm]
  ring

/-- On an all-ones mask, the scaled 3-channel person mask is 255 everywhere. -/
theorem segMask3ch_ones {f : Img} {m : GrayQ} (hone : ∀ y x, m.px y x = 1) :
    ∀ y x (c : Fin 3), (segMask3ch f m).px y x c = 255 := by
  intro y x c
  simp only [segMask3ch, segMaskResized]
  rw [cvResize_const hone]
  norm_num [u8ofQ, pyInt]
  decide

/-- On an all-zeros mask, the scaled 3-channel person mask is 0 everywhere. -/
theorem segMask3ch_zeros {f : Img} {m : GrayQ} (hz : ∀ y x, m.px y x = 0) :
    ∀ y x (c : Fin 3), (segMask3ch f m).px y x c = 0 := by
  intro y x c
  simp only [segMask3ch, segMaskResized]
  rw [cvResize_const hz]
  norm_num [u8ofQ, pyInt]

/-- The `person + background` composite against an all-255 person mask returns
the frame, whatever image `Z` the background branch selected. -/
theorem composite_ones {f : Img} {m : GrayQ} (Z : Img)
    (hf : ∀ y x c, f.px y x c ≤ 255)
    (h3 : ∀ y x (c : Fin 3), (segMask3ch f m).px y x c = 255) :
    imgAdd (imgAnd f (segMask3ch f m)) (imgAnd Z (imgNot (segMask3ch f m))) = f := by
  refine Img.ext rfl rfl ?_
  funext y x c
  have hb := hf y x c
  simp only [imgAdd, imgAnd, imgNot, h3, and_255 (hf y x c), Nat.sub_self,
    Nat.and_zero, Nat.add_zero]
  omega

/-- The `person + background` composite against an all-0 person mask returns the
selected background layer `Z` (when `Z` is byte-valued and frame-sized). -/
theorem composite_zeros {f : Img} {m : GrayQ} (Z : Img)
    (hZ : ∀ y x c, Z.px y x c ≤ 255) (hZh : Z.h = f.h) (hZw : Z.w = f.w)
    (h3 : ∀ y x (c : Fin 3), (segMask3ch f m).px y x c = 0) :
    imgAdd (imgAnd f (segMask3ch f m)) (imgAnd Z (imgNot (segMask3ch f m))) = Z := by
  refine Img.ext hZh.symm hZw.symm ?_
  funext y x c
  have hb := hZ y x c
  simp only [imgAdd, imgAnd, imgNot, h3, Nat.and_zero, Nat.sub_zero,
    Nat.zero_and, and_255 (hZ y x c), Nat.zero_add]
  omega

/-- Claim C3: the smoother's first call stores the input as state and returns it
unchanged; every later call with previous state `p` returns
`α·t + (1-α)·p` independently per coordinate of all 3 points, which also becomes
the new state; consequently for `α = 1` every update returns its input. -/
theorem ema_update_spec (α : ℚ) (t p : Tri) (st : Option Tri) :
    LandmarksEMA.call ⟨α, none⟩ t = (⟨α, some t⟩, t)
    ∧ (LandmarksEMA.call ⟨α, some p⟩ t
        = (⟨α, some (emaMix α t p)⟩, emaMix α t p)
      ∧ (emaMix α t p).p1.x = α * t.p1.x + (1 - α) * p.p1.x
      ∧ (emaMix α t p).p1.y = α * t.p1.y + (1 - α) * p.p1.y
      ∧ (emaMix α t p).p2.x = α * t.p2.x + (1 - α) * p.p2.x
      ∧ (emaMix α t p).p2.y = α * t.p2.y + (1 - α) * p.p2.y
      ∧ (emaMix α t p).p3.x = α * t.p3.x + (1 - α) * p.p3.x
      ∧ (emaMix α t p).p3.y = α * t.p3.y + (1 - α) * p.p3.y)
    ∧ (α = 1 → (LandmarksEMA.call ⟨α, st⟩ t).2 = t) := by
  refine ⟨rfl, ⟨rfl, rfl, rfl, rfl, rfl, rfl, rfl⟩, ?_⟩
  rintro rfl
  match st with
  | none => rfl
  | some p =>
      simp only [LandmarksEMA.call, emaMix]
      obtain ⟨⟨x1, y1⟩, ⟨x2, y2⟩, ⟨x3, y3⟩⟩ := t
      simp

/-- If the destination triangle is collinear, the linear part of the affine
matrix returned by `getAffineTransform` is singular (whatever the source
triangle). -/
theorem getAffine_det_zero (s d : Tri) (hcol : collinear d) :
    (getAffineTransform s d).a * (getAffineTransform s d).e
      - (getAffineTransform s d).b * (getAffineTransform s d).d = 0 := by
  obtain ⟨⟨sx1, sy1⟩, ⟨sx2, sy2⟩, ⟨sx3, sy3⟩⟩ := s
  obtain ⟨⟨dx1, dy1⟩, ⟨dx2, dy2⟩, ⟨dx3, dy3⟩⟩ := d
  simp only [getAffineTransform, collinear] at hcol ⊢
  by_cases hd : (sx1 - sx3) * (sy2 - sy3) - (sx2 - sx3) * (sy1 - sy3) = 0
  · rw [hd]
    simp
  · field_simp
    linear_combination
      ((sx1 - sx3) * (sy2 - sy3) - (sx2 - sx3) * (sy1 - sy3)) * hcol

/-- OpenCV's `invertAffineTransform` maps a matrix with singular linear part to
the all-zero affine matrix. -/
theorem invert_singular {m : Aff} (h : m.a * m.e - m.b * m.d = 0) :
    invertAffineTransform m = ⟨0, 0, 0, 0, 0, 0⟩ := by
  simp [invertAffineTransform, h]

/-- Bilinear sampling at the exact source origin of a non-empty image fetches
the origin pixel. -/
theorem sample_origin (im : Rgba) (hw : 0 < im.w) (hh : 0 < im.h) (ch : Fin 4) :
    sampleRgba im 0 0 ch = im.px 0 0 ch := by
  have h0 : ⌊(0 : ℚ)⌋ = 0 := by norm_num
  simp only [sampleRgba, h0, Int.toNat_zero]
  rw [if_pos]
  · ring
  · refine ⟨le_refl 0, ?_, le_refl 0, ?_⟩
    · exact_mod_cast hw
    · exact_mod_cast hh

/-- Saturating-rounding conversion is the identity on byte values. -/
theorem rndU8_byte {n : ℕ} (h : n ≤ 255) : rndU8 (n : ℚ) = n := by
  simp only [rndU8, round_natCast, Int.toNat_natCast]
  omega

/-- Claim C4: an all-ones foreground mask makes `process_background` return the
input frame; an all-zeros mask makes it return the selected background layer —
the blurred frame in `blur` mode, the supplied (pre-resized) background asset in
`image` mode with an asset, and the frame itself in every remaining case. -/
theorem background_mask_edge_cases
    (blur : Img → Img) (f : Img) (m : GrayQ) (mode : String) (bg : Option Img)
    (hf : ∀ y x c, f.px y x c ≤ 255)
    (hblur : ∀ y x c, (blur f).px y x c ≤ 255)
    (hblurH : (blur f).h = f.h) (hblurW : (blur f).w = f.w)
    (hbg : ∀ b, bg = some b →
      (∀ y x c, b.px y x c ≤ 255) ∧ b.h = f.h ∧ b.w = f.w) :
    ((∀ y x, m.px y x = 1) → process_background blur f m mode bg = f)
    ∧ ((∀ y x, m.px y x = 0) →
        (mode = modeBlur → process_background blur f m mode bg = blur f)
        ∧ (∀ b, bg = some b → mode = modeImage →
            process_background blur f m mode bg = b)
        ∧ (mode ≠ modeBlur → (mode = modeImage → bg = none) →
            process_background blur f m mode bg = f)) := by
  constructor
  · intro hone
    have h3 := segMask3ch_ones (f := f) hone
    by_cases hm : mode = modeBlur
    · simp only [process_background, if_pos hm]
      exact composite_ones _ hf h3
    · cases bg with
      | none =>
          simp only [process_background, if_neg hm]
          exact composite_ones _ hf h3
      | some b =>
          by_cases hm2 : mode = modeImage
          · simp only [process_background, if_neg hm, if_pos hm2]
            exact composite_ones _ hf h3
          · simp only [process_background, if_neg hm, if_neg hm2]
            exact composite_ones _ hf h3
  · intro hzero
    have h3 := segMask3ch_zeros (f := f) hzero
    refine ⟨?_, ?_, ?_⟩
    · intro hm
      simp only [process_background, if_pos hm]
      exact composite_zeros _ hblur hblurH hblurW h3
    · intro b hb hm2
      obtain ⟨hbpx, hbh, hbw⟩ := hbg b hb
      have hm : mode ≠ modeBlur := by
        rw [hm2]
        intro h
        exact absurd (congrArg String.length h) (by decide)
      subst hb
      simp only [process_background, if_neg hm, if_pos hm2]
      exact composite_zeros _ hbpx hbh hbw h3
    · intro hm hnone
      cases bg with
      | none =>
          simp only [process_background, if_neg hm]
          exact composite_zeros _ hf rfl rfl h3
      | some b =>
          have hm2 : mode ≠ modeImage := fun h => Option.noConfusion (hnone h)
          simp only [process_background, if_neg hm, if_neg hm2]
          exact composite_zeros _ hf rfl rfl h3

/-- Witness for C4: on the concrete all-ones mask, `process_background`
(in `blur` mode, with the identity standing in the blur slot) returns the
concrete frame unchanged. -/
theorem background_mask_edge_cases_witness :
    (∀ y x, maskOnesT.px y x = 1)
    ∧ process_background id frameT maskOnesT modeBlur none = frameT :=
  ⟨fun _ _ => rfl,
    (background_mask_edge_cases id frameT maskOnesT modeBlur none
      (fun _ _ _ => by norm_num [frameT]) (fun _ _ _ => by norm_num [frameT])
      rfl rfl (fun _ h => Option.noConfusion h)).1 (fun _ _ => rfl)⟩

/-- Claim C9: whenever the mode is not `'blur'` and is not `'image'`-with-asset,
the background layer degrades to `frame AND backgroundMask`, i.e. the composite
is `(frame AND personMask) + (frame AND NOT personMask)`. -/
theorem background_default_layer
    (blur : Img → Img) (f : Img) (m : GrayQ) (mode : String) (bg : Option Img)
    (h1 : mode ≠ modeBlur) (h2 : mode = modeImage → bg = none) :
    process_background blur f m mode bg
      = imgAdd (imgAnd f (segMask3ch f m)) (imgAnd f (imgNot (segMask3ch f m))) := by
  cases bg with
  | none => simp only [process_background, if_neg h1]
  | some b =>
      have hm2 : mode ≠ modeImage := fun h => Option.noConfusion (h2 h)
      simp only [process_background, if_neg h1, if_neg hm2]

/-- Witness for C9: `image` mode with no asset supplied degrades to the
frame-AND-backgroundMask layer on the concrete frame and mask. -/
theorem background_default_layer_witness :
    modeImage ≠ modeBlur
    ∧ process_background id frameT maskOnesT modeImage none
        = imgAdd (imgAnd frameT (segMask3ch frameT maskOnesT))
            (imgAnd frameT (imgNot (segMask3ch frameT maskOnesT))) :=
  ⟨fun h => absurd (congrArg String.length h) (by decide),
    background_default_layer id frameT maskOnesT modeImage none
      (fun h => absurd (congrArg String.length h) (by decide)) (fun _ => rfl)⟩

/-- Claim C2: when the extracted triangle fails the validity gate after the
mirror swap (some coordinate of nose or either eye is zero or negative), the
frame step leaves the smoother untouched, never invokes the renderer, and emits
the background-composited working frame. -/
theorem invalid_triangle_skips_overlay
    (blur : Img → Img) (mode : String) (bg_image : Option Img)
    (ema : LandmarksEMA) (mask_rgba : Rgba) (frame : Img)
    (seg : Option GrayQ) (nose eye_l eye_r : Pt)
    (hgate : ¬ gateOK nose (mirrorFix eye_l eye_r).1 (mirrorFix eye_l eye_r).2) :
    processFrame blur mode bg_image ema mask_rgba frame seg
        (some (nose, eye_l, eye_r))
      = ⟨workingFrame blur mode bg_image frame seg, ema, none⟩ := by
  simp only [processFrame, if_neg hgate]

/-- Witness for C2: a nose with `x = 0` fails the gate; the step emits the
working frame (here the raw frame, no segmentation) and leaves the fresh
smoother state `none` untouched. -/
theorem invalid_triangle_skips_overlay_witness :
    ¬ gateOK ⟨0, 5⟩ (mirrorFix ⟨1, 1⟩ ⟨2, 1⟩).1 (mirrorFix ⟨1, 1⟩ ⟨2, 1⟩).2
    ∧ processFrame id modeBlur none emaT rgbaT frameT none
        (some (⟨0, 5⟩, ⟨1, 1⟩, ⟨2, 1⟩))
      = ⟨workingFrame id modeBlur none frameT none, emaT, none⟩ :=
  ⟨fun h => absurd h.1 (by norm_num),
    invalid_triangle_skips_overlay id modeBlur none emaT rgbaT frameT none
      ⟨0, 5⟩ ⟨1, 1⟩ ⟨2, 1⟩ (fun h => absurd h.1 (by norm_num))⟩

/-- Claim C5: the landmark path is computed from the raw frame only — two runs
of the frame step that differ only in background mode and/or background asset
produce the same smoother state and feed the identical validated triangle. -/
theorem landmarks_independent_of_background
    (blur : Img → Img) (ema : LandmarksEMA) (mask_rgba : Rgba) (frame : Img)
    (seg : Option GrayQ) (pose : Option (Pt × Pt × Pt))
    (mode₁ mode₂ : String) (bg₁ bg₂ : Option Img) :
    (processFrame blur mode₁ bg₁ ema mask_rgba frame seg pose).ema
      = (processFrame blur mode₂ bg₂ ema mask_rgba frame seg pose).ema
    ∧ (processFrame blur mode₁ bg₁ ema mask_rgba frame seg pose).used
      = (processFrame blur mode₂ bg₂ ema mask_rgba frame seg pose).used := by
  cases pose with
  | none => exact ⟨rfl, rfl⟩
  | some p =>
      obtain ⟨nose, eye_l, eye_r⟩ := p
      by_cases h : gateOK nose (mirrorFix eye_l eye_r).1 (mirrorFix eye_l eye_r).2
      · simp only [processFrame, if_pos h]
        exact ⟨trivial, trivial⟩
      · simp only [processFrame, if_neg h]
        exact ⟨trivial, trivial⟩

/-- Claim C8: whenever the step records a triangle fed downstream, that
triangle has left-eye.x ≤ right-eye.x; when the raw keypoints are mirrored
(left-eye.x > right-eye.x) the fed triangle is the raw one with the eyes
swapped, otherwise it is the raw one unchanged. -/
theorem mirrored_pose_correction
    (blur : Img → Img) (mode : String) (bg_image : Option Img)
    (ema : LandmarksEMA) (mask_rgba : Rgba) (frame : Img)
    (seg : Option GrayQ) (nose eye_l eye_r : Pt) (t : Tri)
    (hused : (processFrame blur mode bg_image ema mask_rgba frame seg
        (some (nose, eye_l, eye_r))).used = some t) :
    t.p1.x ≤ t.p2.x
    ∧ (eye_l.x > eye_r.x → t = ⟨eye_r, eye_l, nose⟩)
    ∧ (¬ eye_l.x > eye_r.x → t = ⟨eye_l, eye_r, nose⟩) := by
  by_cases h : gateOK nose (mirrorFix eye_l eye_r).1 (mirrorFix eye_l eye_r).2
  · simp only [processFrame, if_pos h] at hused
    have ht := Option.some_injective _ hused
    by_cases hswap : eye_l.x > eye_r.x
    · rw [mirrorFix, if_pos hswap] at ht
      subst ht
      exact ⟨le_of_lt hswap, fun _ => rfl, fun hc => absurd hswap hc⟩
    · rw [mirrorFix, if_neg hswap] at ht
      subst ht
      exact ⟨le_of_not_lt hswap, fun hc => absurd hc hswap, fun _ => rfl⟩
  · simp only [processFrame, if_neg h] at hused
    exact absurd hused (by simp)

/-- Witness for C8 on the spec's own test vector: left-eye (100,50),
right-eye (60,50), nose (80,70) is mirrored, and the triangle fed downstream
is the swapped one. -/
theorem mirrored_pose_correction_witness :
    (processFrame id modeBlur none emaT rgbaT frameT none
        (some (⟨80, 70⟩, ⟨100, 50⟩, ⟨60, 50⟩))).used
      = some ⟨⟨60, 50⟩, ⟨100, 50⟩, ⟨80, 70⟩⟩
    ∧ (⟨⟨60, 50⟩, ⟨100, 50⟩, ⟨80, 70⟩⟩ : Tri).p1.x
        ≤ (⟨⟨60, 50⟩, ⟨100, 50⟩, ⟨80, 70⟩⟩ : Tri).p2.x := by
  have hused : (processFrame id modeBlur none emaT rgbaT frameT none
      (some (⟨80, 70⟩, ⟨100, 50⟩, ⟨60, 50⟩))).used
      = some ⟨⟨60, 50⟩, ⟨100, 50⟩, ⟨80, 70⟩⟩ := by
    have hswap : ((100 : ℚ), (50 : ℚ)).1 > ((60 : ℚ), (50 : ℚ)).1 := by norm_num
    simp only [processFrame, mirrorFix]
    norm_num [gateOK]
  exact ⟨hused,
    (mirrored_pose_correction id modeBlur none emaT rgbaT frameT none
      ⟨80, 70⟩ ⟨100, 50⟩ ⟨60, 50⟩ _ hused).1⟩

/-- Claim C6: for every frame, overlay asset and (non-degenerate) destination
triangle, each output pixel and channel of the renderer is
`frame·(1-weight) + warpedRGB·weight`, with weight the warped alpha channel
divided by 255, computed in exact arithmetic and quantised to 8 bits on
output. -/
theorem overlay_blend_formula (frame : Img) (ov : Rgba) (tri : Tri)
    (hnd : ¬ collinear tri) (y x : ℕ) (c : Fin 3) :
    (overlay_png_affine frame ov tri).px y x c
      = u8ofQ ((frame.px y x c : ℚ)
          * (1 - ((warpAffine ov (getAffineTransform (srcTriangle ov.w ov.h) tri)
                frame.w frame.h).px y x alphaCh : ℚ) / 255)
        + ((warpAffine ov (getAffineTransform (srcTriangle ov.w ov.h) tri)
              frame.w frame.h).px y x (rgbCh c) : ℚ)
          * (((warpAffine ov (getAffineTransform (srcTriangle ov.w ov.h) tri)
                frame.w frame.h).px y x alphaCh : ℚ) / 255)) :=
  rfl

/-- Witness for C6: the formula at pixel (0,0), channel 0, of the concrete
frame, opaque overlay, and non-degenerate triangle. -/
theorem overlay_blend_formula_witness :
    ¬ collinear triGoodT
    ∧ (overlay_png_affine frameT ovOpaqueT triGoodT).px 0 0 0
      = u8ofQ ((frameT.px 0 0 0 : ℚ)
          * (1 - ((warpAffine ovOpaqueT
                (getAffineTransform (srcTriangle ovOpaqueT.w ovOpaqueT.h) triGoodT)
                frameT.w frameT.h).px 0 0 alphaCh : ℚ) / 255)
        + ((warpAffine ovOpaqueT
              (getAffineTransform (srcTriangle ovOpaqueT.w ovOpaqueT.h) triGoodT)
              frameT.w frameT.h).px 0 0 (rgbCh 0) : ℚ)
          * (((warpAffine ovOpaqueT
                (getAffineTransform (srcTriangle ovOpaqueT.w ovOpaqueT.h) triGoodT)
                frameT.w frameT.h).px 0 0 alphaCh : ℚ) / 255)) :=
  ⟨by norm_num [collinear, triGoodT],
    overlay_blend_formula frameT ovOpaqueT triGoodT
      (by norm_num [collinear, triGoodT]) 0 0 0⟩

/-- Claim C10: both per-frame image operations preserve frame geometry — the
outputs of `process_background` and `overlay_png_affine` have exactly the input
frame's height and width (and are 3-channel by construction of `Img`). -/
theorem frame_geometry_preserved (blur : Img → Img) (f : Img) (m : GrayQ)
    (mode : String) (bg : Option Img) (ov : Rgba) (tri : Tri) :
    (process_background blur f m mode bg).h = f.h
    ∧ (process_background blur f m mode bg).w = f.w
    ∧ (overlay_png_affine f ov tri).h = f.h
    ∧ (overlay_png_affine f ov tri).w = f.w :=
  ⟨rfl, rfl, rfl, rfl⟩

/-- Claim C7 (amended): the source triangle used by the renderer is the
truncated fractional template `(⌊0.33·W⌋, ⌊0.36·H⌋)`, `(⌊0.67·W⌋, ⌊0.36·H⌋)`,
`(⌊0.50·W⌋, ⌊0.46·H⌋)` — `int(...)` in the source truncates the products to
whole pixels. -/
theorem template_anchor_points (W H : ℕ) :
    srcTriangle W H
      = ⟨⟨((33 * W) / 100 : ℕ), ((36 * H) / 100 : ℕ)⟩,
         ⟨((67 * W) / 100 : ℕ), ((36 * H) / 100 : ℕ)⟩,
         ⟨((50 * W) / 100 : ℕ), ((46 * H) / 100 : ℕ)⟩⟩ := by
  have key : ∀ (q : ℚ) (a n : ℕ), q = (a : ℚ) / 100 →
      pyInt ((n : ℚ) * q) = ((a * n) / 100 : ℕ) := by
    intro q a n hq
    subst hq
    have hnn : (0 : ℚ) ≤ (n : ℚ) * ((a : ℚ) / 100) := by positivity
    have h1 : (n : ℚ) * ((a : ℚ) / 100) = ((a * n : ℕ) : ℚ) / ((100 : ℕ) : ℚ) := by
      push_cast
      ring
    have h3 : (0 : ℚ) ≤ ((a * n : ℕ) : ℚ) / ((100 : ℕ) : ℚ) := by positivity
    rw [pyInt, if_neg (not_lt.mpr hnn), h1, ← Int.natCast_floor_eq_floor h3,
      Nat.floor_div_eq_div]
  have h33 := key (33/100) 33 W (by norm_num)
  have h36 := key (36/100) 36 H (by norm_num)
  have h67 := key (67/100) 67 W (by norm_num)
  have h50 := key (50/100) 50 W (by norm_num)
  have h46 := key (46/100) 46 H (by norm_num)
  simp only [srcTriangle, h33, h36, h67, h50, h46, Int.cast_natCast]

/-- Counterexample for C7 as stated: for a 10×10 overlay asset the template
anchors the source actually uses are not exactly `(0.33·W, 0.36·H)` etc. —
the left-eye x-anchor is `int(10·0.33) = 3`, not `3.3`. -/
theorem template_anchor_points_counterexample :
    srcTriangle 10 10 ≠ srcTriangleSpec 10 10 := by
  intro h
  have hx := congrArg (fun t => t.p1.x) h
  simp only [srcTriangle, srcTriangleSpec] at hx
  norm_num [pyInt] at hx

/-- On a collinear destination triangle the renderer still runs: the affine
solve yields a singular linear part, the OpenCV inverse is the zero matrix,
every canvas pixel samples the overlay's origin texel, and the frame is
alpha-blended with that constant canvas (shared computation for C1). -/
theorem overlay_collinear_blend
    (frame : Img) (ov : Rgba) (tri : Tri)
    (hcol : collinear tri) (hw : 0 < ov.w) (hh : 0 < ov.h)
    (hov : ∀ y x ch, ov.px y x ch ≤ 255) (y x : ℕ) (c : Fin 3) :
    (overlay_png_affine frame ov tri).px y x c
      = u8ofQ ((frame.px y x c : ℚ) * (1 - (ov.px 0 0 alphaCh : ℚ) / 255)
          + (ov.px 0 0 (rgbCh c) : ℚ) * ((ov.px 0 0 alphaCh : ℚ) / 255)) := by
  have hz := invert_singular (getAffine_det_zero (srcTriangle ov.w ov.h) tri hcol)
  have happ : ∀ u v : ℚ, (Aff.apply ⟨0, 0, 0, 0, 0, 0⟩ u v) = (0, 0) := by
    intro u v
    simp [Aff.apply]
  have hwarp : ∀ ch, (warpAffine ov
      (getAffineTransform (srcTriangle ov.w ov.h) tri) frame.w frame.h).px y x ch
      = ov.px 0 0 ch := by
    intro ch
    simp only [warpAffine, hz, happ]
    rw [sample_origin ov hw hh, rndU8_byte (hov 0 0 ch)]
  simp only [overlay_png_affine, hwarp]

/-- Claim C1 (amended): `overlay_png_affine` contains no degeneracy check — on
a collinear destination triangle it does not skip and return the frame
unchanged. Instead the exact affine solve yields a singular linear part,
OpenCV's `invertAffineTransform` convention inverts it to the zero matrix,
every canvas pixel samples the overlay's origin texel, and the output is the
frame alpha-blended with that constant canvas. -/
theorem degenerate_triangle_no_skip
    (frame : Img) (ov : Rgba) (tri : Tri)
    (hcol : collinear tri) (hw : 0 < ov.w) (hh : 0 < ov.h)
    (hov : ∀ y x ch, ov.px y x ch ≤ 255) (y x : ℕ) (c : Fin 3) :
    (overlay_png_affine frame ov tri).px y x c
      = u8ofQ ((frame.px y x c : ℚ) * (1 - (ov.px 0 0 alphaCh : ℚ) / 255)
          + (ov.px 0 0 (rgbCh c) : ℚ) * ((ov.px 0 0 alphaCh : ℚ) / 255)) :=
  overlay_collinear_blend frame ov tri hcol hw hh hov y x c

/-- Witness for C1's amended theorem: at the concrete collinear triangle, the
opaque overlay and the constant-7 frame, pixel (0,0,0) of the renderer output
is the blend of the overlay's origin texel — not the frame pixel. -/
theorem degenerate_triangle_no_skip_witness :
    collinear triCollinearT
    ∧ 0 < ovOpaqueT.w ∧ 0 < ovOpaqueT.h
    ∧ (overlay_png_affine frameT ovOpaqueT triCollinearT).px 0 0 0
      = u8ofQ ((frameT.px 0 0 0 : ℚ)
            * (1 - (ovOpaqueT.px 0 0 alphaCh : ℚ) / 255)
          + (ovOpaqueT.px 0 0 (rgbCh 0) : ℚ)
            * ((ovOpaqueT.px 0 0 alphaCh : ℚ) / 255)) :=
  ⟨by norm_num [collinear, triCollinearT], by norm_num [ovOpaqueT],
    by norm_num [ovOpaqueT],
    degenerate_triangle_no_skip frameT ovOpaqueT triCollinearT
      (by norm_num [collinear, triCollinearT]) (by norm_num [ovOpaqueT])
      (by norm_num [ovOpaqueT])
      (fun _ _ ch => by
        simp only [ovOpaqueT]
        split <;> norm_num) 0 0 0⟩

/-- Counterexample for C1 as stated: on the concrete collinear destination
triangle the renderer does not return the input frame unchanged — pixel
(0,0,0) of its output is the opaque overlay colour 200, not the frame's 7. -/
theorem degenerate_triangle_counterexample :
    overlay_png_affine frameT ovOpaqueT triCollinearT ≠ frameT := by
  intro h
  have hpx := congrArg (fun i => i.px 0 0 0) h
  have hval : (overlay_png_affine frameT ovOpaqueT triCollinearT).px 0 0 0 = 200 := by
    rw [overlay_collinear_blend frameT ovOpaqueT triCollinearT
      (by norm_num [collinear, triCollinearT]) (by norm_num [ovOpaqueT])
      (by norm_num [ovOpaqueT])
      (fun _ _ ch => by
        simp only [ovOpaqueT]
        split <;> norm_num) 0 0 0]
    have ha : (ovOpaqueT.px 0 0 alphaCh : ℚ) = 255 := by
      simp [ovOpaqueT]
    have hr : (ovOpaqueT.px 0 0 (rgbCh 0) : ℚ) = 200 := by
      simp [ovOpaqueT, rgbCh, alphaCh]
    rw [ha, hr]
    norm_num [u8ofQ, pyInt, frameT]
    decide
  simp only at hpx
  rw [hval] at hpx
  simp [frameT] at hpx

/-- Witness for C3 at `α = 1`, a concrete triangle and a concrete previous
state: the update returns its input. -/
theorem ema_update_spec_witness :
    (LandmarksEMA.call ⟨1, some ⟨⟨5, 6⟩, ⟨7, 8⟩, ⟨9, 10⟩⟩⟩ ⟨⟨1, 2⟩, ⟨3, 4⟩, ⟨8, 7⟩⟩).2
      = ⟨⟨1, 2⟩, ⟨3, 4⟩, ⟨8, 7⟩⟩ :=
  (ema_update_spec 1 ⟨⟨1, 2⟩, ⟨3, 4⟩, ⟨8, 7⟩⟩ ⟨⟨5, 6⟩, ⟨7, 8⟩, ⟨9, 10⟩⟩
    (some ⟨⟨5, 6⟩, ⟨7, 8⟩, ⟨9, 10⟩⟩)).2.2 rfl

end VideoProc
